import Mathlib

/-!
Shallow embedding of the igloo-mcp core (src/igloo_mcp/igloo.py and
src/igloo_mcp/formatter.py) and of the spec-described truncation/continuation
engine, together with theorems settling the frozen claims about the
pagination engine, the page-fetch batch semantics, the validation order,
and the formatter helpers.

Conventions of the embedding:
- Machine integers are Nat (Python ints are unbounded; all quantities here
  are non-negative counts/offsets).
- The HTTP transport is abstracted by a response function passed in
  explicitly; a network request is recorded in a request trace so that
  "issues zero requests" style properties are statable.
- Fallible code returns Except; Python raise corresponds to Except.error.
- asyncio.gather(*tasks) is modelled by sequentially collecting the task
  outcomes in task order (task order is what gather's result order and
  exception propagation are defined by); gather(..., return_exceptions=True)
  is modelled by collecting each outcome, error or not, positionally.
-/

namespace IglooMcp

/-- Errors surfaced by the client: ValueError (validation), an HTTP error
status raised by raise_for_status, or a transport/timeout failure. -/
inductive IglooError where
  | valueError (msg : String)
  | httpStatusError
  | transportError
deriving DecidableEq, Repr

/-- The UpdatedDateType enum of igloo.py (lines 24-30). -/
inductive UpdatedDateType where
  | pastHour
  | pastTwentyFourHours
  | pastWeek
  | pastMonth
  | pastYear
  | customRange
deriving DecidableEq, Repr

/-- JSON body of one search-endpoint response, restricted to the two fields
the engine reads (igloo.py lines 205-207): the "results" list and the
"numFound" count.  Either may be absent, modelled by Option.  Records are
opaque payloads of type alpha. -/
structure SearchResponse (α : Type) where
  results : Option (List α)
  numFound : Option Nat
deriving DecidableEq, Repr

/-- The arguments of IglooClient.search that steer its control flow; the
remaining keyword arguments only populate the outgoing query parameters. -/
structure SearchArgs where
  updatedDateType : Option UpdatedDateType := none
  updatedDateRangeFrom : Option Nat := none
  updatedDateRangeTo : Option Nat := none
  paginationPageSize : Option Nat := none
  limit : Option Nat := none
deriving DecidableEq, Repr

instance {ε α : Type} [DecidableEq ε] [DecidableEq α] : DecidableEq (Except ε α) :=
  fun a b =>
    match a, b with
    | .error e, .error f => decidable_of_iff (e = f) (by simp)
    | .ok x, .ok y => decidable_of_iff (x = y) (by simp)
    | .error _, .ok _ => isFalse (by simp)
    | .ok _, .error _ => isFalse (by simp)

/-- Result of one search call: the trace of page requests issued (none is
the first request, which carries no offset parameter; some o is a fan-out
request at offset o), in issue order, and the outcome. -/
structure SearchRun (α : Type) where
  requests : List (Option Nat)
  outcome : Except IglooError (List α)
deriving DecidableEq, Repr

/-- page_size = pagination_page_size or self.page_size (igloo.py line 166).
Python `or` takes the right operand when the left is falsy, and 0 is falsy. -/
def computedPageSize (pageSize : Nat) (paginationPageSize : Option Nat) : Nat :=
  match paginationPageSize with
  | some p => if p = 0 then pageSize else p
  | none => pageSize

/-- Number of elements of Python range(start, stop, step) for step >= 1:
ceil((stop - start) / step), and 0 when stop <= start (Nat subtraction
truncates). -/
def pythonRangeLen (start stop step : Nat) : Nat :=
  (stop - start + step - 1) / step

/-- The fan-out offsets: range(len(results), results_to_fetch, page_size)
(igloo.py line 221). -/
def fanoutOffsets (start stop step : Nat) : List Nat :=
  List.range' start (pythonRangeLen start stop step) step

/-- asyncio.gather over the fan-out page requests (igloo.py line 233):
all tasks are issued; if any raises, the whole gather raises (the model
propagates the first error in task order), else the responses are returned
in task order. -/
def gatherResponses (respond : Option Nat → Except IglooError (SearchResponse α)) :
    List Nat → Except IglooError (List (SearchResponse α))
  | [] => .ok []
  | o :: rest =>
    match respond (some o), gatherResponses respond rest with
    | .error e, _ => .error e
    | .ok _, .error e => .error e
    | .ok r, .ok rs => .ok (r :: rs)

/-- The fan-out and merge phase of IglooClient.search (igloo.py lines
220-242): compute the remaining offsets, issue all fan-out requests
concurrently, extend the first-page results with each page's results in
offset order, and truncate to the limit if one was given.  Python
range(a, b, 0) raises ValueError, hence the step-zero branch. -/
def searchFanout (respond : Option Nat → Except IglooError (SearchResponse α))
    (pageSize : Nat) (results : List α) (resultsToFetch : Nat)
    (limit : Option Nat) : SearchRun α :=
  if pageSize = 0 then
    ⟨[none], .error (.valueError "range arg 3 must not be zero")⟩
  else
    match gatherResponses respond (fanoutOffsets results.length resultsToFetch pageSize) with
    | .error e =>
      ⟨none :: (fanoutOffsets results.length resultsToFetch pageSize).map some, .error e⟩
    | .ok pages =>
      ⟨none :: (fanoutOffsets results.length resultsToFetch pageSize).map some,
       .ok (match limit with
            | some l => (results ++ (pages.map (fun pg => pg.results.getD [])).flatten).take l
            | none => results ++ (pages.map (fun pg => pg.results.getD [])).flatten)⟩

/-- IglooClient.search after the first page has been parsed (igloo.py lines
209-221): the limit == 0 short-circuit, the first-page-satisfies-limit
short-circuit, and otherwise results_to_fetch = min(limit, total_found)
(or total_found without a limit) followed by the fan-out. -/
def searchAfterFirst (respond : Option Nat → Except IglooError (SearchResponse α))
    (pageSize : Nat) (limit : Option Nat) (results : List α) (totalFound : Nat) :
    SearchRun α :=
  match limit with
  | some l =>
    if l = 0 then ⟨[none], .ok []⟩
    else if l ≤ results.length then ⟨[none], .ok (results.take l)⟩
    else searchFanout respond pageSize results (min l totalFound) (some l)
  | none => searchFanout respond pageSize results totalFound none

/-- IglooClient.search (igloo.py lines 125-242).  The date-filter
validation (lines 186-191) happens while building the request parameters,
before the first network request (line 199).  The first response's
"results" field defaults to the empty list (Python `or []`, line 206) and
"numFound" defaults to len(results) (line 207). -/
def search (pageSize : Nat) (respond : Option Nat → Except IglooError (SearchResponse α))
    (args : SearchArgs) : SearchRun α :=
  if args.updatedDateType = some UpdatedDateType.customRange ∧
      (args.updatedDateRangeFrom = none ∨ args.updatedDateRangeTo = none) then
    ⟨[], .error (.valueError "updated date range bounds must be provided")⟩
  else
    match respond none with
    | .error e => ⟨[none], .error e⟩
    | .ok first =>
      searchAfterFirst respond (computedPageSize pageSize args.paginationPageSize)
        args.limit (first.results.getD [])
        (first.numFound.getD (first.results.getD []).length)

/-- A server holding an ordered match list that honours offsets: a request
with offset parameter o (the first request carries none, i.e. offset 0)
returns the records at positions [o, o + pageSize) and reports the full
match count in numFound. -/
def pagedRespond (records : List α) (pageSize : Nat) :
    Option Nat → Except IglooError (SearchResponse α) :=
  fun o => .ok ⟨some ((records.drop (o.getD 0)).take pageSize), some records.length⟩

/-- min(limit, totalFound) when a limit is given, else totalFound: the
number of records the engine is asked for, as used by the spec's
pagination-completeness property. -/
def requestedTotal (limit : Option Nat) (totalFound : Nat) : Nat :=
  match limit with
  | some l => min l totalFound
  | none => totalFound

/-- A responder whose first-page response (the offset-free request) is the
given value and whose fan-out responses are those of the underlying
responder: used to quantify over servers by their first response. -/
def overrideFirst (respond : Option Nat → Except IglooError (SearchResponse α))
    (first : SearchResponse α) : Option Nat → Except IglooError (SearchResponse α) :=
  fun o =>
    match o with
    | none => .ok first
    | some k => respond (some k)

/-- An HTTP response as seen by the transport: a status code and a body. -/
structure HttpResponse (β : Type) where
  status : Nat
  body : β
deriving DecidableEq, Repr

/-- httpx Response.raise_for_status: return the response if the status is
a 2xx success, raise otherwise. -/
def raiseForStatus (r : HttpResponse β) : Except IglooError (HttpResponse β) :=
  if 200 ≤ r.status ∧ r.status < 300 then .ok r else .error .httpStatusError

/-- IglooClient._request (igloo.py lines 76-96): reject an invalid HTTP
method before any request is sent, otherwise send and raise_for_status.
Returns the number of network requests issued together with the outcome. -/
def request (send : Unit → Except IglooError (HttpResponse β)) (method : String) :
    Nat × Except IglooError (HttpResponse β) :=
  if method = "GET" ∨ method = "POST" ∨ method = "PUT" ∨ method = "DELETE" then
    match send () with
    | .error e => (1, .error e)
    | .ok r => (1, raiseForStatus r)
  else
    (0, .error (.valueError ("Invalid HTTP method: " ++ method)))

/-- Python str.startswith: the pattern's characters are a prefix of the
string's characters. -/
def strStartsWith (s pre : String) : Bool :=
  pre.toList.isPrefixOf s.toList

/-- IglooClient._validate_community_url (igloo.py lines 244-262), reduced
to its boolean test: the URL is the community base URL itself, or extends
it with a path ("/") or query ("?") separator. -/
def validateCommunityUrl (community url : String) : Bool :=
  url == community || strStartsWith url (community ++ "/")
    || strStartsWith url (community ++ "?")

/-- IglooClient.fetch_page (igloo.py lines 264-287): validate the URL
(ValueError before any request), then issue the request and
raise_for_status, returning the body text.  Returns the number of network
requests issued together with the outcome. -/
def fetchPage (community : String) (net : String → Except IglooError (HttpResponse String))
    (url : String) : Nat × Except IglooError String :=
  if validateCommunityUrl community url then
    match net url with
    | .error e => (1, .error e)
    | .ok r =>
      (1, match raiseForStatus r with
          | .error e => .error e
          | .ok r2 => .ok r2.body)
  else
    (0, .error (.valueError ("URL must belong to community. Got: " ++ url)))

/-- IglooClient.fetch_pages (igloo.py lines 289-307):
asyncio.gather(*tasks, return_exceptions=True) over fetch_page of each URL;
each slot holds its own URL's outcome, content or error, positionally in
input order. -/
def fetchPages (community : String)
    (net : String → Except IglooError (HttpResponse String))
    (urls : List String) : List (Except IglooError String) :=
  urls.map (fun u => (fetchPage community net u).2)

/-- Floor base-2 logarithm by fuelled structural recursion (so it reduces
in the kernel): natLog2Aux fuel n descends through halvings. -/
def natLog2Aux : Nat → Nat → Nat
  | 0, _ => 0
  | fuel + 1, n => if n ≤ 1 then 0 else natLog2Aux fuel (n / 2) + 1

/-- Floor base-2 logarithm of a positive natural (0 on 0 and 1). -/
def natLog2 (n : Nat) : Nat :=
  natLog2Aux n n

/-- Round the quotient N / d to the nearest integer, ties to even: the
rounding mode of IEEE-754 binary floating point. -/
def roundHalfEven (N d : Nat) : Nat :=
  if 2 * (N % d) < d then N / d
  else if d < 2 * (N % d) then N / d + 1
  else if (N / d) % 2 = 0 then N / d else N / d + 1

/-- One plus the floor base-2 exponent of the quotient a / b, for
quotients at least one half (so the result stays in Nat: a quotient in
[2^E, 2^(E+1)) with E >= -1 gives E + 1 >= 0). -/
def floatDivExpS (a b : Nat) : Nat :=
  if b ≤ a then natLog2 (a / b) + 1 else 0

/-- int(a / b) where the division is Python float true division a / b on
non-negative ints with b > 0: the exact quotient is correctly rounded to
the binary64 grid (53-bit significand, round half to even), then int()
truncates toward zero, which is the floor for non-negative values.
A quotient below one half rounds to a value at most one half and
truncates to 0 directly.  Otherwise, writing E for the floor base-2
exponent of the quotient (encoded as e = E + 1 >= 0), the grid spacing in
the quotient's binade is 2^(E-52), so the rounded value is
roundHalfEven(a * 2^(52-E), b) * 2^(E-52), evaluated in Nat with the
scaling split between numerator and denominator by the sign of 52 - E.
The exponent range is unbounded, which agrees with binary64 except at
overflow (quotients beyond 2^1024; the formatter divides values at most
100 apart) and at subnormals (quotients below 2^-1022, already covered by
the below-one-half branch). -/
def intTruncFloatDiv (a b : Nat) : Nat :=
  if 2 * a < b then 0
  else
    roundHalfEven (a * 2 ^ (53 - floatDivExpS a b)) (b * 2 ^ (floatDivExpS a b - 53))
      * 2 ^ (floatDivExpS a b - 53) / 2 ^ (53 - floatDivExpS a b)

/-- The percentage-complete display of formatter.format_truncation_metadata
(formatter.py line 244): int(100 * chars_returned / chars_total) when
chars_total > 0, else 0.  The division is Python float true division, so
the displayed value is the truncation of the correctly rounded double
quotient, not of the exact quotient. -/
def truncationPct (charsReturned charsTotal : Nat) : Nat :=
  if 0 < charsTotal then intTruncFloatDiv (100 * charsReturned) charsTotal else 0

/-- Python s.rsplit(" ", 1)[0] on a character list: everything strictly
before the last space, or the whole string when it has no space. -/
def beforeLastSpace (l : List Char) : List Char :=
  match l.reverse.dropWhile (fun c => c != ' ') with
  | [] => l
  | _ :: rest => rest.reverse

/-- formatter._truncate_text (formatter.py lines 153-168): texts of at
most max_length characters pass through unchanged; longer texts are cut to
the first max_length characters, trimmed back to before the last space,
with an ellipsis appended. -/
def truncateText (text : List Char) (maxLength : Nat) : List Char :=
  if text.length ≤ maxLength then text
  else beforeLastSpace (text.take maxLength) ++ ['.', '.', '.']

/-- Status field of a truncation window. -/
inductive FetchStatus where
  | complete
  | incomplete
deriving DecidableEq, Repr

/-- One truncation window: the characters returned plus the continuation
metadata (spec section 3, TruncationWindow). -/
structure TruncationWindow (α : Type) where
  window : List α
  status : FetchStatus
  charsReturned : Nat
  charsTotal : Nat
  nextStartIndex : Option Nat
deriving DecidableEq, Repr

/-- Modelled from the spec: the truncation/continuation engine
(igloo_mcp/converter.py, absent from src; only its consumers appear).
Spec section 4.2: the window is the substring of the document starting at
start_index extending up to max_chars characters; chars_total is the
document length; chars_returned the window length; the status is complete
iff start_index + chars_returned >= chars_total, and a partial window
carries next_start_index = start_index + chars_returned. -/
def fetchWindow (doc : List α) (startIndex maxChars : Nat) : TruncationWindow α :=
  if doc.length ≤ startIndex + ((doc.drop startIndex).take maxChars).length then
    ⟨(doc.drop startIndex).take maxChars, .complete,
     ((doc.drop startIndex).take maxChars).length, doc.length, none⟩
  else
    ⟨(doc.drop startIndex).take maxChars, .incomplete,
     ((doc.drop startIndex).take maxChars).length, doc.length,
     some (startIndex + ((doc.drop startIndex).take maxChars).length)⟩

/-- The caller-side continuation loop of spec section 4.2: fetch a window
at the given start index and, while the status is not complete, feed
next_start_index back as the next start index, collecting the windows.
Fuel bounds the number of calls so the loop is total; none means the fuel
ran out before a complete window was reached. -/
def collectWindows (doc : List α) (maxChars : Nat) :
    Nat → Nat → Option (List (List α))
  | 0, _ => none
  | fuel + 1, start =>
    let w := fetchWindow doc start maxChars
    match w.status with
    | .complete => some [w.window]
    | .incomplete =>
      match collectWindows doc maxChars fuel (start + w.charsReturned) with
      | some ws => some (w.window :: ws)
      | none => none

/-! Helper lemmas shared between the claim theorems. -/

/-- Taking a full prefix is the same as taking at most the length. -/
theorem take_eq_take_min (l : List α) (n : Nat) : l.take n = l.take (min n l.length) := by
  rcases Nat.le_total n l.length with h | h
  · rw [Nat.min_eq_left h]
  · rw [Nat.min_eq_right h, List.take_of_length_le h, List.take_length]

/-- A Python range is empty when the stop does not exceed the start. -/
theorem pythonRangeLen_eq_zero {start stop step : Nat} (hstep : step ≠ 0)
    (h : stop ≤ start) : pythonRangeLen start stop step = 0 := by
  unfold pythonRangeLen
  have hz : stop - start = 0 := Nat.sub_eq_zero_of_le h
  rw [hz]
  exact Nat.div_eq_of_lt (by omega)

/-- Gathering over the offset-honouring server always succeeds and returns
the offset pages in order. -/
theorem gatherResponses_paged (records : List α) (pageSize : Nat) (offs : List Nat) :
    gatherResponses (pagedRespond records pageSize) offs =
      .ok (offs.map (fun o =>
        ⟨some ((records.drop o).take pageSize), some records.length⟩)) := by
  induction offs with
  | nil => rfl
  | cons a rest ih => simp [gatherResponses, ih, pagedRespond]

/-- Merging consecutive offset pages of width step extends a prefix of the
record list by step times the number of pages. -/
theorem merge_take (records : List α) (step : Nat) :
    ∀ (n s : Nat),
      records.take s ++
        ((List.range' s n step).map (fun o => (records.drop o).take step)).flatten =
      records.take (s + n * step) := by
  intro n
  induction n with
  | zero => intro s; simp
  | succ n ih =>
    intro s
    rw [List.range'_succ]
    simp only [List.map_cons, List.flatten_cons]
    rw [← List.append_assoc, ← List.take_add, ih (s + step)]
    congr 1
    ring

/-- If the responder fails at a requested offset, the gather fails. -/
theorem gatherResponses_error_of_mem {α : Type}
    (respond : Option Nat → Except IglooError (SearchResponse α))
    (offs : List Nat) (o : Nat) (e : IglooError)
    (ho : o ∈ offs) (he : respond (some o) = .error e) :
    ∃ e', gatherResponses respond offs = .error e' := by
  induction offs with
  | nil => cases ho
  | cons a rest ih =>
    cases ha : respond (some a) with
    | error e1 => exact ⟨e1, by simp [gatherResponses, ha]⟩
    | ok r =>
      have ho' : o ∈ rest := by
        rcases List.mem_cons.mp ho with h | h
        · subst h; rw [he] at ha; cases ha
        · exact h
      obtain ⟨e', hg⟩ := ih ho'
      exact ⟨e', by simp [gatherResponses, ha, hg]⟩

/-- Unfolding searchAfterFirst at a given limit. -/
theorem searchAfterFirst_some {α : Type}
    (respond : Option Nat → Except IglooError (SearchResponse α))
    (P l : Nat) (rs : List α) (tot : Nat) :
    searchAfterFirst respond P (some l) rs tot =
      if l = 0 then ⟨[none], .ok []⟩
      else if l ≤ rs.length then ⟨[none], .ok (rs.take l)⟩
      else searchFanout respond P rs (min l tot) (some l) := rfl

/-- Unfolding searchAfterFirst without a limit. -/
theorem searchAfterFirst_none {α : Type}
    (respond : Option Nat → Except IglooError (SearchResponse α))
    (P : Nat) (rs : List α) (tot : Nat) :
    searchAfterFirst respond P none rs tot = searchFanout respond P rs tot none := rfl

/-- The fan-out phase when some gathered page request failed. -/
theorem searchFanout_error {α : Type}
    (respond : Option Nat → Except IglooError (SearchResponse α))
    (P : Nat) (rs : List α) (rtf : Nat) (lim : Option Nat) (e : IglooError)
    (hP : ¬ P = 0)
    (hg : gatherResponses respond (fanoutOffsets rs.length rtf P) = .error e) :
    searchFanout respond P rs rtf lim =
      ⟨none :: (fanoutOffsets rs.length rtf P).map some, .error e⟩ := by
  unfold searchFanout
  rw [if_neg hP, hg]

/-- The fan-out phase when every gathered page request succeeded. -/
theorem searchFanout_ok {α : Type}
    (respond : Option Nat → Except IglooError (SearchResponse α))
    (P : Nat) (rs : List α) (rtf : Nat) (lim : Option Nat)
    (pages : List (SearchResponse α)) (hP : ¬ P = 0)
    (hg : gatherResponses respond (fanoutOffsets rs.length rtf P) = .ok pages) :
    searchFanout respond P rs rtf lim =
      ⟨none :: (fanoutOffsets rs.length rtf P).map some,
       .ok (match lim with
            | some l => (rs ++ (pages.map (fun pg => pg.results.getD [])).flatten).take l
            | none => rs ++ (pages.map (fun pg => pg.results.getD [])).flatten)⟩ := by
  unfold searchFanout
  rw [if_neg hP, hg]

/-- Unfolding search once the validation has passed and the first response
is known. -/
theorem search_eq_afterFirst {α : Type} (pageSize : Nat)
    (respond : Option Nat → Except IglooError (SearchResponse α))
    (args : SearchArgs) (first : SearchResponse α)
    (hv : ¬(args.updatedDateType = some UpdatedDateType.customRange ∧
      (args.updatedDateRangeFrom = none ∨ args.updatedDateRangeTo = none)))
    (h1 : respond none = .ok first) :
    search pageSize respond args =
      searchAfterFirst respond (computedPageSize pageSize args.paginationPageSize)
        args.limit (first.results.getD [])
        (first.numFound.getD (first.results.getD []).length) := by
  unfold search
  rw [if_neg hv, h1]

/-! Claim C6: the percentage-complete display. -/

/-- The fuelled floor base-2 logarithm brackets its argument between
consecutive powers of two. -/
theorem natLog2Aux_spec :
    ∀ (fuel n : Nat), 1 ≤ n → n ≤ fuel →
      2 ^ natLog2Aux fuel n ≤ n ∧ n < 2 ^ (natLog2Aux fuel n + 1) := by
  intro fuel
  induction fuel with
  | zero => intro n h1 hle; omega
  | succ fuel ih =>
    intro n h1 hle
    by_cases h : n ≤ 1
    · simp only [natLog2Aux, if_pos h]
      omega
    · simp only [natLog2Aux, if_neg h]
      obtain ⟨hl, hr⟩ := ih (n / 2) (by omega) (by omega)
      have e1 : (2 : Nat) ^ (natLog2Aux fuel (n / 2) + 1) =
          2 * 2 ^ natLog2Aux fuel (n / 2) := by ring
      have e2 : (2 : Nat) ^ (natLog2Aux fuel (n / 2) + 1 + 1) =
          4 * 2 ^ natLog2Aux fuel (n / 2) := by ring
      rw [e1, e2] at *
      omega

/-- natLog2 brackets a positive natural between consecutive powers of
two. -/
theorem natLog2_spec (n : Nat) (h : 1 ≤ n) :
    2 ^ natLog2 n ≤ n ∧ n < 2 ^ (natLog2 n + 1) :=
  natLog2Aux_spec n n h (Nat.le_refl n)

/-- roundHalfEven lies between the floor and the floor plus one, rounds
up only when the remainder is at least half the divisor, and is exact on
exact quotients. -/
theorem roundHalfEven_spec (N d : Nat) (hd : 0 < d) :
    N / d ≤ roundHalfEven N d ∧
    roundHalfEven N d ≤ N / d + 1 ∧
    (roundHalfEven N d = N / d + 1 → d ≤ 2 * (N % d)) ∧
    (N % d = 0 → roundHalfEven N d = N / d) := by
  unfold roundHalfEven
  generalize N % d = g
  generalize N / d = q
  split_ifs <;> omega

/-- The scaled significand brackets: for quotients of at least one half,
the scaled numerator a * 2^(53-e) sits in the binade
[2^52, 2^53) of the scaled denominator b * 2^(e-53), where
e = floatDivExpS a b. -/
theorem floatDiv_bracket (a b : Nat) (hb : 0 < b) (hba : b ≤ 2 * a) :
    2 ^ 52 * (b * 2 ^ (floatDivExpS a b - 53)) ≤ a * 2 ^ (53 - floatDivExpS a b) ∧
    a * 2 ^ (53 - floatDivExpS a b) < 2 ^ 53 * (b * 2 ^ (floatDivExpS a b - 53)) := by
  unfold floatDivExpS
  by_cases hab : b ≤ a
  · rw [if_pos hab]
    have h1 : 1 ≤ a / b := (Nat.one_le_div_iff hb).mpr hab
    obtain ⟨hl, hr⟩ := natLog2_spec (a / b) h1
    have hlb : 2 ^ natLog2 (a / b) * b ≤ a :=
      le_trans (Nat.mul_le_mul_right b hl) (Nat.div_mul_le_self a b)
    have hub : a < 2 ^ (natLog2 (a / b) + 1) * b :=
      lt_of_lt_of_le ((Nat.div_lt_iff_lt_mul hb).mp (Nat.lt_succ_self _))
        (Nat.mul_le_mul_right b (Nat.succ_le_of_lt hr))
    by_cases hL53 : natLog2 (a / b) + 1 ≤ 53
    · have hu : natLog2 (a / b) + 1 - 53 = 0 := by omega
      have hs : 53 - (natLog2 (a / b) + 1) = 52 - natLog2 (a / b) := by omega
      rw [hu, hs]
      simp only [pow_zero, Nat.mul_one]
      have e1 : (2 : Nat) ^ 52 = 2 ^ natLog2 (a / b) * 2 ^ (52 - natLog2 (a / b)) := by
        rw [← pow_add]
        congr 1
        omega
      have e2 : (2 : Nat) ^ 53 =
          2 ^ (natLog2 (a / b) + 1) * 2 ^ (52 - natLog2 (a / b)) := by
        rw [← pow_add]
        congr 1
        omega
      constructor
      · calc 2 ^ 52 * b = 2 ^ natLog2 (a / b) * b * 2 ^ (52 - natLog2 (a / b)) := by
              rw [e1]; ring
          _ ≤ a * 2 ^ (52 - natLog2 (a / b)) := Nat.mul_le_mul_right _ hlb
      · calc a * 2 ^ (52 - natLog2 (a / b)) <
              2 ^ (natLog2 (a / b) + 1) * b * 2 ^ (52 - natLog2 (a / b)) :=
              (Nat.mul_lt_mul_right (Nat.pos_pow_of_pos _ (by norm_num))).mpr hub
          _ = 2 ^ 53 * b := by rw [e2]; ring
    · have hs : 53 - (natLog2 (a / b) + 1) = 0 := by omega
      have hu : natLog2 (a / b) + 1 - 53 = natLog2 (a / b) - 52 := by omega
      rw [hs, hu]
      simp only [pow_zero, Nat.mul_one]
      have e1 : (2 : Nat) ^ 52 * 2 ^ (natLog2 (a / b) - 52) = 2 ^ natLog2 (a / b) := by
        rw [← pow_add]
        congr 1
        omega
      have e2 : (2 : Nat) ^ 53 * 2 ^ (natLog2 (a / b) - 52) =
          2 ^ (natLog2 (a / b) + 1) := by
        rw [← pow_add]
        congr 1
        omega
      constructor
      · calc 2 ^ 52 * (b * 2 ^ (natLog2 (a / b) - 52)) = 2 ^ natLog2 (a / b) * b := by
              rw [← e1]; ring
          _ ≤ a := hlb
      · calc a < 2 ^ (natLog2 (a / b) + 1) * b := hub
          _ = 2 ^ 53 * (b * 2 ^ (natLog2 (a / b) - 52)) := by rw [← e2]; ring
  · rw [if_neg hab]
    simp only [Nat.zero_sub, Nat.sub_zero, pow_zero, Nat.mul_one]
    constructor
    · calc 2 ^ 52 * b ≤ 2 ^ 52 * (2 * a) := Nat.mul_le_mul_left _ hba
        _ = a * 2 ^ 53 := by ring
    · calc a * 2 ^ 53 < b * 2 ^ 53 :=
          (Nat.mul_lt_mul_right (Nat.pos_pow_of_pos _ (by norm_num))).mpr (by omega)
        _ = 2 ^ 53 * b := by ring

/-- A rounded-up significand with a full fractional part forces the
divisor beyond twice the grid scale: if b * f + g = r0 * Tp with
r0 < b, b ≤ 2g and Tp = f + 1, then 2 * Tp ≤ b. -/
theorem roundup_overflow_aux (b Tp r0 f g : Nat) (hr0 : r0 < b)
    (heq : b * f + g = r0 * Tp) (hgb : b ≤ 2 * g) (hTp : Tp = f + 1) :
    2 * Tp ≤ b := by
  have hmul : (r0 + 1) * f ≤ b * f := Nat.mul_le_mul_right f hr0
  have hexp : (r0 + 1) * f = r0 * f + f := by ring
  have heq2 : b * f + g = r0 * f + r0 := by
    rw [heq, hTp]
    ring
  have hfg : f + g ≤ r0 := by
    have h3 : r0 * f + f ≤ b * f := hexp ▸ hmul
    revert h3 heq2
    generalize b * f = A
    generalize r0 * f = B
    intro h3 heq2
    omega
  omega

/-- The float-division truncation never exceeds 100 when the numerator is
at most 100 times the denominator: rounding cannot carry the quotient past
the representable value 100. -/
theorem intTruncFloatDiv_le_100 (a b : Nat) (hb : 0 < b) (hab : a ≤ 100 * b) :
    intTruncFloatDiv a b ≤ 100 := by
  unfold intTruncFloatDiv
  split
  · exact Nat.zero_le 100
  · next h2a =>
    have he : floatDivExpS a b ≤ 7 := by
      unfold floatDivExpS
      split
      · next hba =>
        have h1 : 1 ≤ a / b := (Nat.one_le_div_iff hb).mpr hba
        obtain ⟨hl, _⟩ := natLog2_spec (a / b) h1
        have hdiv : a / b ≤ 100 := by
          have hlt : a < 101 * b := by omega
          have := (Nat.div_lt_iff_lt_mul hb).mpr hlt
          omega
        by_contra hc
        have hfinal : (128 : Nat) ≤ 100 := by
          calc (128 : Nat) = 2 ^ 7 := by norm_num
            _ ≤ 2 ^ natLog2 (a / b) := Nat.pow_le_pow_right (by norm_num) (by omega)
            _ ≤ a / b := hl
            _ ≤ 100 := hdiv
        omega
      · omega
    have hu : floatDivExpS a b - 53 = 0 := by omega
    rw [hu]
    simp only [pow_zero, Nat.mul_one]
    have hNle : a * 2 ^ (53 - floatDivExpS a b) ≤
        100 * 2 ^ (53 - floatDivExpS a b) * b := by
      calc a * 2 ^ (53 - floatDivExpS a b) ≤
            100 * b * 2 ^ (53 - floatDivExpS a b) := Nat.mul_le_mul_right _ hab
        _ = 100 * 2 ^ (53 - floatDivExpS a b) * b := by ring
    obtain ⟨hr1, hr2, hr3, hr4⟩ :=
      roundHalfEven_spec (a * 2 ^ (53 - floatDivExpS a b)) b hb
    revert hr1 hr2 hr3 hr4 hNle
    generalize 53 - floatDivExpS a b = s
    intro hNle hr1 hr2 hr3 hr4
    have hq1 : a * 2 ^ s / b ≤ 100 * 2 ^ s :=
      le_trans (Nat.div_le_div_right hNle)
        (le_of_eq (Nat.mul_div_cancel (100 * 2 ^ s) hb))
    have hm : roundHalfEven (a * 2 ^ s) b ≤ 100 * 2 ^ s := by
      rcases eq_or_lt_of_le hq1 with heq | hlt
      · have hgeN : 100 * 2 ^ s * b ≤ a * 2 ^ s := by
          calc 100 * 2 ^ s * b = a * 2 ^ s / b * b := by rw [heq]
            _ ≤ a * 2 ^ s := Nat.div_mul_le_self _ b
        have hg0 : a * 2 ^ s % b = 0 := by
          rw [Nat.le_antisymm hNle hgeN]
          exact Nat.mul_mod_left _ _
        rw [hr4 hg0, heq]
      · exact le_trans hr2 (Nat.succ_le_of_lt hlt)
    calc roundHalfEven (a * 2 ^ s) b / 2 ^ s ≤ 100 * 2 ^ s / 2 ^ s :=
          Nat.div_le_div_right hm
      _ = 100 := Nat.mul_div_cancel 100 (Nat.pos_pow_of_pos s (by norm_num))

/-- The float-division truncation agrees with the exact floor whenever the
numerator is below 2^53 (the double's exact-integer range): a rounded-up
significand can only cross an integer boundary when the numerator reaches
2^53. -/
theorem intTruncFloatDiv_eq_div (a b : Nat) (hb : 0 < b) (ha : a < 2 ^ 53) :
    intTruncFloatDiv a b = a / b := by
  unfold intTruncFloatDiv
  split
  · next h2a => exact (Nat.div_eq_of_lt (by omega)).symm
  · next h2a =>
    have h2a' : b ≤ 2 * a := by omega
    have he : floatDivExpS a b ≤ 53 := by
      unfold floatDivExpS
      split
      · next hba =>
        have h1 : 1 ≤ a / b := (Nat.one_le_div_iff hb).mpr hba
        obtain ⟨hl, _⟩ := natLog2_spec (a / b) h1
        have hle : a / b < 2 ^ 53 := lt_of_le_of_lt (Nat.div_le_self a b) ha
        by_contra hc
        have h2 : (2 : Nat) ^ 53 ≤ 2 ^ natLog2 (a / b) :=
          Nat.pow_le_pow_right (by norm_num) (by omega)
        exact absurd hle (not_lt.mpr (le_trans h2 hl))
      · omega
    have hu : floatDivExpS a b - 53 = 0 := by omega
    obtain ⟨hbr1, hbr2⟩ := floatDiv_bracket a b hb h2a'
    rw [hu] at hbr1 hbr2 ⊢
    simp only [pow_zero, Nat.mul_one] at hbr1 hbr2 ⊢
    revert hbr1 hbr2
    generalize 53 - floatDivExpS a b = s
    intro hbr1 hbr2
    have hdm := Nat.div_add_mod a b
    have hNdiv : a * 2 ^ s / b = a / b * 2 ^ s + a % b * 2 ^ s / b := by
      conv_lhs => rw [← hdm]
      rw [Nat.add_mul, Nat.mul_assoc, Nat.mul_add_div hb]
    have hNmod : a * 2 ^ s % b = a % b * 2 ^ s % b := by
      conv_lhs => rw [← hdm]
      rw [Nat.add_mul, Nat.mul_assoc, Nat.mul_add_mod]
    obtain ⟨hr1, hr2, hr3, hr4⟩ := roundHalfEven_spec (a * 2 ^ s) b hb
    have hf : a % b * 2 ^ s / b < 2 ^ s := by
      rw [Nat.div_lt_iff_lt_mul hb]
      calc a % b * 2 ^ s < b * 2 ^ s :=
            (Nat.mul_lt_mul_right (Nat.pos_pow_of_pos s (by norm_num))).mpr
              (Nat.mod_lt a hb)
        _ = 2 ^ s * b := Nat.mul_comm b (2 ^ s)
    rcases Nat.lt_or_ge (roundHalfEven (a * 2 ^ s) b) (a * 2 ^ s / b + 1)
      with hcase | hcase
    · have hmq : roundHalfEven (a * 2 ^ s) b = a * 2 ^ s / b :=
        Nat.le_antisymm (Nat.lt_succ_iff.mp hcase) hr1
      rw [hmq, hNdiv, Nat.mul_comm (a / b) (2 ^ s),
        Nat.mul_add_div (Nat.pos_pow_of_pos s (by norm_num)),
        Nat.div_eq_of_lt hf, Nat.add_zero]
    · have hmq : roundHalfEven (a * 2 ^ s) b = a * 2 ^ s / b + 1 :=
        Nat.le_antisymm hr2 hcase
      have hgup := hr3 hmq
      rw [hNmod] at hgup
      rcases Nat.lt_or_ge (a % b * 2 ^ s / b + 1) (2 ^ s) with hflt | hfge
      · rw [hmq, hNdiv, Nat.add_assoc, Nat.mul_comm (a / b) (2 ^ s),
          Nat.mul_add_div (Nat.pos_pow_of_pos s (by norm_num)),
          Nat.div_eq_of_lt hflt, Nat.add_zero]
      · exfalso
        have hTpeq : (2 : Nat) ^ s = a % b * 2 ^ s / b + 1 :=
          Nat.le_antisymm hfge (Nat.succ_le_of_lt hf)
        have h2T : 2 * 2 ^ s ≤ b :=
          roundup_overflow_aux b (2 ^ s) (a % b) (a % b * 2 ^ s / b)
            (a % b * 2 ^ s % b) (Nat.mod_lt a hb)
            (Nat.div_add_mod (a % b * 2 ^ s) b) hgup hTpeq
        have h53 : (2 : Nat) ^ 53 ≤ a := by
          have hcalc : (2 : Nat) ^ 53 * 2 ^ s ≤ a * 2 ^ s := by
            calc (2 : Nat) ^ 53 * 2 ^ s = 2 ^ 52 * (2 * 2 ^ s) := by ring
              _ ≤ 2 ^ 52 * b := Nat.mul_le_mul_left _ h2T
              _ ≤ a * 2 ^ s := hbr1
          exact Nat.le_of_mul_le_mul_right hcalc (Nat.pos_pow_of_pos s (by norm_num))
        exact absurd h53 (not_le.mpr ha)

/-- C6 counterexample: at chars_returned = 10^17 - 1, chars_total = 10^17
the exact quotient 100 - 10^-15 is closer to 100 than to the next double
below it, so the correctly rounded float division yields exactly 100.0 and
the program displays 100, while floor(100 * chars_returned / chars_total)
is 99: the claim's equals-floor conjunct is false of the program. -/
theorem truncationPct_cex :
    truncationPct (10 ^ 17 - 1) (10 ^ 17) = 100 ∧
    100 * (10 ^ 17 - 1) / 10 ^ 17 = 99 ∧
    ¬ truncationPct (10 ^ 17 - 1) (10 ^ 17) = 100 * (10 ^ 17 - 1) / 10 ^ 17 := by
  decide

/-- C6 (amended): for 0 <= chars_returned <= chars_total the displayed
percentage (the truncation of the correctly rounded double quotient
100 * chars_returned / chars_total) lies in [0, 100] (the lower bound is
inherent to Nat), equals 0 when chars_total = 0, and is total (no
division-by-zero error can reach the caller); it equals
floor(100 * chars_returned / chars_total) whenever 100 * chars_returned
is below 2^53, the double's exact-integer range, though not in general
(float rounding can land one above the floor). -/
theorem truncationPct_correct (r t : Nat) (h : r ≤ t) :
    truncationPct r t ≤ 100 ∧
    (t = 0 → truncationPct r t = 0) ∧
    (0 < t → 100 * r < 2 ^ 53 → truncationPct r t = 100 * r / t) := by
  refine ⟨?_, fun ht => by subst ht; rfl, fun ht hsmall => ?_⟩
  · unfold truncationPct
    split
    · next ht => exact intTruncFloatDiv_le_100 (100 * r) t ht (by omega)
    · exact Nat.zero_le 100
  · rw [truncationPct, if_pos ht]
    exact intTruncFloatDiv_eq_div (100 * r) t ht hsmall

/-- Witness for C6's amended theorem at the spec's concrete scenario:
49800 of 125000 characters (within the exact range) displays as 39
percent, the floor. -/
theorem truncationPct_correct_witness :
    (truncationPct 49800 125000 ≤ 100 ∧
      (125000 = 0 → truncationPct 49800 125000 = 0) ∧
      (0 < 125000 → 100 * 49800 < 2 ^ 53 →
        truncationPct 49800 125000 = 100 * 49800 / 125000)) ∧
    truncationPct 49800 125000 = 39 :=
  ⟨truncationPct_correct 49800 125000 (by decide), by decide⟩

/-! Claim C7: validation errors precede any network request. -/

/-- C7: a custom-range date filter missing a bound makes search raise a
ValueError with an empty request trace (raised while building the request
parameters, before the first network call), and an invalid HTTP method
makes the request helper raise a ValueError having sent zero requests. -/
theorem validation_before_network {α β : Type} (pageSize : Nat)
    (respond : Option Nat → Except IglooError (SearchResponse α))
    (args : SearchArgs)
    (send : Unit → Except IglooError (HttpResponse β)) (method : String)
    (hd : args.updatedDateType = some UpdatedDateType.customRange)
    (hb : args.updatedDateRangeFrom = none ∨ args.updatedDateRangeTo = none)
    (hm : method ≠ "GET" ∧ method ≠ "POST" ∧ method ≠ "PUT" ∧ method ≠ "DELETE") :
    ((search pageSize respond args).requests = [] ∧
      ∃ msg, (search pageSize respond args).outcome = .error (.valueError msg)) ∧
    ((request send method).1 = 0 ∧
      ∃ msg, (request send method).2 = .error (.valueError msg)) := by
  constructor
  · unfold search
    rw [if_pos ⟨hd, hb⟩]
    exact ⟨rfl, _, rfl⟩
  · unfold request
    rw [if_neg (by rcases hm with ⟨h1, h2, h3, h4⟩; rintro (h | h | h | h) <;> contradiction)]
    exact ⟨rfl, _, rfl⟩

/-- Witness for C7: a custom-range filter with both bounds absent and the
method PATCH, each rejected with zero requests issued. -/
theorem validation_before_network_witness :
    ((search 50 (fun _ => .ok ⟨some ([] : List Nat), some 0⟩)
        {updatedDateType := some UpdatedDateType.customRange}).requests = [] ∧
      ∃ msg, (search 50 (fun _ => .ok ⟨some ([] : List Nat), some 0⟩)
        {updatedDateType := some UpdatedDateType.customRange}).outcome =
          .error (.valueError msg)) ∧
    ((request (fun _ => .ok (⟨200, 0⟩ : HttpResponse Nat)) "PATCH").1 = 0 ∧
      ∃ msg, (request (fun _ => .ok (⟨200, 0⟩ : HttpResponse Nat)) "PATCH").2 =
        .error (.valueError msg)) :=
  validation_before_network 50 _ _ _ "PATCH" rfl (Or.inl rfl)
    ⟨by decide, by decide, by decide, by decide⟩

/-! Claim C1: the limit == 0 short-circuit. -/

/-- C1 counterexample: with limit = 0 the code still issues the first page
request before the limit check, so the request trace has length 1, not the
0 the claim demands (the check sits after the first network call,
igloo.py line 209 versus line 199). -/
theorem search_limitZero_cex :
    (search 50 (pagedRespond ([0, 1, 2] : List Nat) 50) {limit := some 0}).requests.length = 1 ∧
    ¬ (search 50 (pagedRespond ([0, 1, 2] : List Nat) 50) {limit := some 0}).requests.length = 0 := by
  constructor
  · rfl
  · intro h
    simp at h
    exact absurd h (by decide)

/-- C1 (amended): with limit = 0 and any successful first page, search
returns the empty result list after issuing exactly one network request,
the always-issued first page, and no fan-out request: the limit == 0
check happens after the first page request, not before it. -/
theorem search_limitZero {α : Type} (pageSize : Nat)
    (respond : Option Nat → Except IglooError (SearchResponse α))
    (args : SearchArgs) (first : SearchResponse α)
    (hv : ¬(args.updatedDateType = some UpdatedDateType.customRange ∧
      (args.updatedDateRangeFrom = none ∨ args.updatedDateRangeTo = none)))
    (hl : args.limit = some 0)
    (h1 : respond none = .ok first) :
    search pageSize respond args = ⟨[none], .ok []⟩ := by
  rw [search_eq_afterFirst pageSize respond args first hv h1]
  unfold searchAfterFirst
  rw [hl]
  rfl

/-- Witness for C1's amended theorem at a concrete server and request. -/
theorem search_limitZero_witness :
    search 50 (pagedRespond ([0, 1, 2] : List Nat) 50) {limit := some 0} =
      ⟨[none], .ok []⟩ :=
  search_limitZero 50 _ _ ⟨some [0, 1, 2], some 3⟩ (by decide) rfl rfl

/-! Claim C5: independent multi-page fetch. -/

/-- C5: fetch_pages returns exactly one slot per input URL, positionally
matched to the input order, each slot being precisely that URL's own
fetch_page outcome (content or the error it raised); moreover a slot
depends on the transport's behaviour at its own URL only, so one URL's
failure never aborts or alters any other slot. -/
theorem fetchPages_positional (community : String)
    (net : String → Except IglooError (HttpResponse String)) (urls : List String) :
    (fetchPages community net urls).length = urls.length ∧
    (∀ i : Nat, (fetchPages community net urls)[i]? =
      (urls[i]?).map (fun u => (fetchPage community net u).2)) ∧
    (∀ (net' : String → Except IglooError (HttpResponse String)) (i : Nat) (u : String),
      urls[i]? = some u → net u = net' u →
      (fetchPages community net urls)[i]? = (fetchPages community net' urls)[i]?) := by
  refine ⟨by simp [fetchPages],
    fun i => by simp [fetchPages, List.getElem?_map], ?_⟩
  intro net' i u hu hnet
  have : (fetchPage community net u).2 = (fetchPage community net' u).2 := by
    unfold fetchPage
    rw [hnet]
  simp [fetchPages, List.getElem?_map, hu, this]

/-- Witness for C5 at the spec's scenario: three URLs of which exactly the
middle one fails; the result has length 3 and the middle slot is that
URL's own error. -/
theorem fetchPages_positional_witness :
    (fetchPages "https://c"
      (fun u => if u = "https://c/b" then .error .transportError else .ok ⟨200, u⟩)
      ["https://c/a", "https://c/b", "https://c/d"]).length = 3 ∧
    (fetchPages "https://c"
      (fun u => if u = "https://c/b" then .error .transportError else .ok ⟨200, u⟩)
      ["https://c/a", "https://c/b", "https://c/d"])[1]? =
      (["https://c/a", "https://c/b", "https://c/d"][1]?).map
        (fun u => (fetchPage "https://c"
          (fun u => if u = "https://c/b" then .error .transportError else .ok ⟨200, u⟩) u).2) :=
  ⟨(fetchPages_positional _ _ _).1, (fetchPages_positional _ _ _).2.1 1⟩

/-! Claim C10: community-URL validation. -/

/-- C10: a URL that is neither the community base URL nor an extension of
it by a "/" or "?" separator makes fetch_page raise a ValueError with zero
network requests issued, and in fetch_pages that URL's slot carries the
error while every other slot still holds its own URL's outcome. -/
theorem fetchPage_invalidUrl (community url : String)
    (net : String → Except IglooError (HttpResponse String))
    (h1 : url ≠ community)
    (h2 : strStartsWith url (community ++ "/") = false)
    (h3 : strStartsWith url (community ++ "?") = false) :
    fetchPage community net url =
      (0, .error (.valueError ("URL must belong to community. Got: " ++ url))) ∧
    ∀ (urls : List String) (i : Nat), urls[i]? = some url →
      (fetchPages community net urls)[i]? =
        some (.error (.valueError ("URL must belong to community. Got: " ++ url))) ∧
      ∀ j : Nat, j ≠ i → (fetchPages community net urls)[j]? =
        (urls[j]?).map (fun u => (fetchPage community net u).2) := by
  have hvalid : validateCommunityUrl community url = false := by
    simp [validateCommunityUrl, h1, h2, h3]
  have hpage : fetchPage community net url =
      (0, .error (.valueError ("URL must belong to community. Got: " ++ url))) := by
    unfold fetchPage
    rw [hvalid]
    simp
  refine ⟨hpage, fun urls i hu => ⟨?_, fun j _ => by simp [fetchPages, List.getElem?_map]⟩⟩
  simp [fetchPages, List.getElem?_map, hu, hpage]

/-- Witness for C10: community https://c rejects https://cx (which extends
the base URL without a separator); in a two-URL batch the second slot is
the error and the first slot is its own fetched content. -/
theorem fetchPage_invalidUrl_witness :
    fetchPage "https://c" (fun u => .ok ⟨200, u⟩) "https://cx" =
      (0, .error (.valueError ("URL must belong to community. Got: " ++ "https://cx"))) ∧
    (fetchPages "https://c" (fun u => .ok ⟨200, u⟩) ["https://c/a", "https://cx"])[1]? =
      some (.error (.valueError ("URL must belong to community. Got: " ++ "https://cx"))) ∧
    (fetchPages "https://c" (fun u => .ok ⟨200, u⟩) ["https://c/a", "https://cx"])[0]? =
      ((["https://c/a", "https://cx"] : List String)[0]?).map
        (fun u => (fetchPage "https://c" (fun u => .ok ⟨200, u⟩) u).2) := by
  have h := fetchPage_invalidUrl "https://c" "https://cx" (fun u => .ok ⟨200, u⟩)
    (by decide) (by decide) (by decide)
  have h2 := h.2 ["https://c/a", "https://cx"] 1 rfl
  exact ⟨h.1, h2.1, h2.2 0 (by decide)⟩

/-! Claim C9: the short-text truncation helper. -/

/-- Python rsplit by one space: the head of dropWhile on the reversed list
falsifies the predicate. -/
theorem dropWhile_head_false {p : Char → Bool} :
    ∀ (r : List Char) (c : Char) (rest : List Char),
      r.dropWhile p = c :: rest → p c = false := by
  intro r
  induction r with
  | nil => intro c rest h; cases h
  | cons a t ih =>
    intro c rest h
    rw [List.dropWhile_cons] at h
    split at h
    · exact ih c rest h
    · next hpa =>
      cases h
      exact Bool.not_eq_true _ |>.mp hpa

/-- Characterisation of beforeLastSpace: either the list has no space and
is returned whole, or the result is the prefix strictly before the last
space (the dropped tail contains no space). -/
theorem beforeLastSpace_spec (l : List Char) :
    (¬ ' ' ∈ l ∧ beforeLastSpace l = l) ∨
    (∃ suffix, beforeLastSpace l ++ ' ' :: suffix = l ∧ ¬ ' ' ∈ suffix) := by
  unfold beforeLastSpace
  cases hd : l.reverse.dropWhile (fun c => c != ' ') with
  | nil =>
    left
    refine ⟨?_, rfl⟩
    intro hmem
    have hall := List.dropWhile_eq_nil_iff.mp hd ' ' (List.mem_reverse.mpr hmem)
    simp at hall
  | cons c rest =>
    right
    have hc : (c != ' ') = false := dropWhile_head_false l.reverse c rest hd
    have hc' : c = ' ' := by simpa using hc
    subst hc'
    refine ⟨(l.reverse.takeWhile (fun c => c != ' ')).reverse, ?_, ?_⟩
    · have hsplit := List.takeWhile_append_dropWhile (fun c => c != ' ') l.reverse
      rw [hd] at hsplit
      have := congrArg List.reverse hsplit
      simpa [List.reverse_append, List.append_assoc] using this
    · intro hmem
      have hmem' := List.mem_reverse.mp hmem
      have := List.mem_takeWhile_imp hmem'
      simp at this

/-- C9: the short-text truncation helper returns texts of length at most
max_length unchanged, and otherwise cuts the text to its first max_length
characters trimmed back to the last whole-word boundary (everything after
the last space inside the cut, space included, is dropped; if the cut
contains no space it is kept whole) with an ellipsis appended. -/
theorem truncateText_spec (text : List Char) (maxLength : Nat) :
    (text.length ≤ maxLength → truncateText text maxLength = text) ∧
    (maxLength < text.length →
      ((¬ ' ' ∈ text.take maxLength ∧
          truncateText text maxLength = text.take maxLength ++ ['.', '.', '.']) ∨
        (∃ pre suffix, truncateText text maxLength = pre ++ ['.', '.', '.'] ∧
          pre ++ ' ' :: suffix = text.take maxLength ∧ ¬ ' ' ∈ suffix))) := by
  constructor
  · intro h
    unfold truncateText
    rw [if_pos h]
  · intro h
    have hne : ¬ text.length ≤ maxLength := by omega
    unfold truncateText
    rw [if_neg hne]
    rcases beforeLastSpace_spec (text.take maxLength) with ⟨hnm, heq⟩ | ⟨suffix, heq, hns⟩
    · exact Or.inl ⟨hnm, by rw [heq]⟩
    · exact Or.inr ⟨beforeLastSpace (text.take maxLength), suffix, rfl, heq, hns⟩

/-- Witness for C9: truncating a 26-character sentence to 11 characters
keeps the last whole word inside the cut and appends the ellipsis. -/
theorem truncateText_spec_witness :
    ((¬ ' ' ∈ ("hello world this is a test".toList).take 11 ∧
        truncateText ("hello world this is a test".toList) 11 =
          ("hello world this is a test".toList).take 11 ++ ['.', '.', '.']) ∨
      (∃ pre suffix, truncateText ("hello world this is a test".toList) 11 =
          pre ++ ['.', '.', '.'] ∧
        pre ++ ' ' :: suffix = ("hello world this is a test".toList).take 11 ∧
        ¬ ' ' ∈ suffix)) ∧
    truncateText ("hello world this is a test".toList) 11 = "hello...".toList :=
  ⟨(truncateText_spec ("hello world this is a test".toList) 11).2 (by decide), by decide⟩

/-! Claim C4: a fan-out failure is fatal to the whole search call. -/

/-- C4: if the search call reaches the fan-out (its limit, if any, is
neither zero nor already satisfied by the first page) and the responder
fails at any one of the fan-out offsets, the whole search call fails: its
outcome carries no result list at all (asyncio.gather propagates the
exception, igloo.py line 233). -/
theorem search_fanout_failure {α : Type} (pageSize : Nat)
    (respond : Option Nat → Except IglooError (SearchResponse α))
    (args : SearchArgs) (first : SearchResponse α) (o : Nat) (e : IglooError)
    (hv : ¬(args.updatedDateType = some UpdatedDateType.customRange ∧
      (args.updatedDateRangeFrom = none ∨ args.updatedDateRangeTo = none)))
    (h1 : respond none = .ok first)
    (hl : match args.limit with
          | some l => ¬ l = 0 ∧ ¬ l ≤ (first.results.getD []).length
          | none => True)
    (hP : ¬ computedPageSize pageSize args.paginationPageSize = 0)
    (ho : o ∈ fanoutOffsets (first.results.getD []).length
        (requestedTotal args.limit (first.numFound.getD (first.results.getD []).length))
        (computedPageSize pageSize args.paginationPageSize))
    (he : respond (some o) = .error e) :
    (search pageSize respond args).outcome.toOption = none := by
  rw [search_eq_afterFirst pageSize respond args first hv h1]
  cases hlim : args.limit with
  | some l =>
    rw [hlim] at hl ho
    simp only [requestedTotal] at ho
    obtain ⟨e', hg⟩ := gatherResponses_error_of_mem respond _ o e ho he
    rw [searchAfterFirst_some, if_neg hl.1, if_neg hl.2,
      searchFanout_error respond _ _ _ _ e' hP hg]
    rfl
  | none =>
    rw [hlim] at ho
    simp only [requestedTotal] at ho
    obtain ⟨e', hg⟩ := gatherResponses_error_of_mem respond _ o e ho he
    rw [searchAfterFirst_none, searchFanout_error respond _ _ _ _ e' hP hg]
    rfl

/-- Witness for C4: a 120-match server whose page request at offset 50
times out; the whole unlimited search yields no result list. -/
theorem search_fanout_failure_witness :
    (search 50
      (fun o => if o = some 50 then .error .transportError
        else if o = none then .ok ⟨some (List.range 50), some 120⟩
        else .ok ⟨some ([] : List Nat), some 120⟩)
      {}).outcome.toOption = none :=
  search_fanout_failure 50 _ {} ⟨some (List.range 50), some 120⟩ 50 .transportError
    (by decide) rfl trivial (by decide) (by decide) rfl

/-! Claim C8: leniency towards absent response fields. -/

/-- Gathering only consults the responder at fan-out (some-offset) requests. -/
theorem gatherResponses_congr {α : Type}
    (r1 r2 : Option Nat → Except IglooError (SearchResponse α))
    (h : ∀ k, r1 (some k) = r2 (some k)) :
    ∀ offs, gatherResponses r1 offs = gatherResponses r2 offs := by
  intro offs
  induction offs with
  | nil => rfl
  | cons a rest ih =>
    unfold gatherResponses
    rw [h a, ih]

/-- The fan-out phase only consults the responder at fan-out requests. -/
theorem searchFanout_congr {α : Type}
    (r1 r2 : Option Nat → Except IglooError (SearchResponse α))
    (h : ∀ k, r1 (some k) = r2 (some k))
    (P : Nat) (rs : List α) (rtf : Nat) (lim : Option Nat) :
    searchFanout r1 P rs rtf lim = searchFanout r2 P rs rtf lim := by
  unfold searchFanout
  rw [gatherResponses_congr r1 r2 h]

/-- The post-first-page phase only consults the responder at fan-out
requests. -/
theorem searchAfterFirst_congr {α : Type}
    (r1 r2 : Option Nat → Except IglooError (SearchResponse α))
    (h : ∀ k, r1 (some k) = r2 (some k))
    (P : Nat) (lim : Option Nat) (rs : List α) (tot : Nat) :
    searchAfterFirst r1 P lim rs tot = searchAfterFirst r2 P lim rs tot := by
  cases lim with
  | some l =>
    rw [searchAfterFirst_some, searchAfterFirst_some, searchFanout_congr r1 r2 h]
  | none =>
    rw [searchAfterFirst_none, searchAfterFirst_none, searchFanout_congr r1 r2 h]

/-- The fan-out phase with a zero page size fails on range(a, b, 0). -/
theorem searchFanout_stepZero {α : Type}
    (respond : Option Nat → Except IglooError (SearchResponse α))
    (rs : List α) (rtf : Nat) (lim : Option Nat) :
    searchFanout respond 0 rs rtf lim =
      ⟨[none], .error (.valueError "range arg 3 must not be zero")⟩ := by
  unfold searchFanout
  rw [if_pos rfl]

/-- When the records to fetch are already covered by the first page, the
fan-out issues no request and returns the first page (truncated to the
limit, when given). -/
theorem searchFanout_rtf_le {α : Type}
    (respond : Option Nat → Except IglooError (SearchResponse α))
    (P : Nat) (rs : List α) (rtf : Nat) (lim : Option Nat)
    (hP : ¬ P = 0) (hle : rtf ≤ rs.length) :
    searchFanout respond P rs rtf lim =
      ⟨[none], .ok (match lim with | some l => rs.take l | none => rs)⟩ := by
  have hoffs : fanoutOffsets rs.length rtf P = [] := by
    unfold fanoutOffsets
    rw [pythonRangeLen_eq_zero hP hle]
    rfl
  unfold searchFanout
  rw [if_neg hP, hoffs]
  cases lim <;> simp [gatherResponses]

/-- The post-first-page phase does not depend on the reported total when
the total is within the first page (both totals at most the first-page
length give the same run). -/
theorem searchAfterFirst_total_irrelevant {α : Type}
    (respond : Option Nat → Except IglooError (SearchResponse α))
    (P : Nat) (lim : Option Nat) (rs : List α) (tot1 tot2 : Nat)
    (h1 : tot1 ≤ rs.length) (h2 : tot2 ≤ rs.length) :
    searchAfterFirst respond P lim rs tot1 = searchAfterFirst respond P lim rs tot2 := by
  by_cases hP : P = 0
  · subst hP
    cases lim with
    | some l =>
      rw [searchAfterFirst_some, searchAfterFirst_some,
        searchFanout_stepZero, searchFanout_stepZero]
    | none =>
      rw [searchAfterFirst_none, searchAfterFirst_none,
        searchFanout_stepZero, searchFanout_stepZero]
  · cases lim with
    | some l =>
      rw [searchAfterFirst_some, searchAfterFirst_some]
      by_cases h0 : l = 0
      · rw [if_pos h0, if_pos h0]
      rw [if_neg h0, if_neg h0]
      by_cases hle : l ≤ rs.length
      · rw [if_pos hle, if_pos hle]
      rw [if_neg hle, if_neg hle,
        searchFanout_rtf_le respond P rs _ _ hP (le_trans (Nat.min_le_right l tot1) h1),
        searchFanout_rtf_le respond P rs _ _ hP (le_trans (Nat.min_le_right l tot2) h2)]
    | none =>
      rw [searchAfterFirst_none, searchAfterFirst_none,
        searchFanout_rtf_le respond P rs _ _ hP h1,
        searchFanout_rtf_le respond P rs _ _ hP h2]

/-- C8: the engine is lenient about absent search-response fields.  A
first page whose results field is absent runs exactly like one carrying an
empty list; a first page whose numFound field is absent runs exactly like
one reporting a total of 0 (the code defaults numFound to the first-page
length, which is observationally the same: either way no fan-out past the
first page's records is planned); and a first response with both fields
absent makes the search succeed with an empty result list rather than
fail. -/
theorem search_missing_fields {α : Type} (pageSize : Nat)
    (respond : Option Nat → Except IglooError (SearchResponse α)) (args : SearchArgs)
    (hv : ¬(args.updatedDateType = some UpdatedDateType.customRange ∧
      (args.updatedDateRangeFrom = none ∨ args.updatedDateRangeTo = none))) :
    (∀ nf : Option Nat,
      search pageSize (overrideFirst respond ⟨none, nf⟩) args =
        search pageSize (overrideFirst respond ⟨some [], nf⟩) args) ∧
    (∀ rs : List α,
      search pageSize (overrideFirst respond ⟨some rs, none⟩) args =
        search pageSize (overrideFirst respond ⟨some rs, some 0⟩) args) ∧
    (¬ computedPageSize pageSize args.paginationPageSize = 0 →
      (search pageSize (overrideFirst respond ⟨none, none⟩) args).outcome = .ok []) := by
  refine ⟨?_, ?_, ?_⟩
  · intro nf
    rw [search_eq_afterFirst pageSize _ args ⟨none, nf⟩ hv rfl,
      search_eq_afterFirst pageSize _ args ⟨some [], nf⟩ hv rfl]
    apply searchAfterFirst_congr
    intro k
    rfl
  · intro rs
    rw [search_eq_afterFirst pageSize _ args ⟨some rs, none⟩ hv rfl,
      search_eq_afterFirst pageSize _ args ⟨some rs, some 0⟩ hv rfl]
    calc searchAfterFirst (overrideFirst respond ⟨some rs, none⟩)
          (computedPageSize pageSize args.paginationPageSize) args.limit rs rs.length
        = searchAfterFirst respond
          (computedPageSize pageSize args.paginationPageSize) args.limit rs rs.length :=
          by apply searchAfterFirst_congr; intro k; rfl
      _ = searchAfterFirst respond
          (computedPageSize pageSize args.paginationPageSize) args.limit rs 0 :=
          searchAfterFirst_total_irrelevant respond _ args.limit rs rs.length 0
            (Nat.le_refl _) (Nat.zero_le _)
      _ = searchAfterFirst (overrideFirst respond ⟨some rs, some 0⟩)
          (computedPageSize pageSize args.paginationPageSize) args.limit rs 0 :=
          by symm; apply searchAfterFirst_congr; intro k; rfl
  · intro hP
    rw [search_eq_afterFirst pageSize _ args ⟨none, none⟩ hv rfl]
    cases hlim : args.limit with
    | some l =>
      rw [searchAfterFirst_some]
      by_cases h0 : l = 0
      · rw [if_pos h0]
      · rw [if_neg h0, if_neg (by simp; omega),
          searchFanout_rtf_le _ _ _ _ _ hP (by simp)]
        simp
    | none =>
      rw [searchAfterFirst_none, searchFanout_rtf_le _ _ _ _ _ hP (by simp)]
      simp

/-- Witness for C8: a 50-page-size search against first responses with
absent fields behaves as with the defaulted fields and succeeds. -/
theorem search_missing_fields_witness :
    (search 50 (overrideFirst (fun _ => .ok (⟨some [], some 0⟩ : SearchResponse Nat)) ⟨none, some 7⟩) {} =
      search 50 (overrideFirst (fun _ => .ok (⟨some [], some 0⟩ : SearchResponse Nat)) ⟨some [], some 7⟩) {}) ∧
    (search 50 (overrideFirst (fun _ => .ok (⟨some [], some 0⟩ : SearchResponse Nat)) ⟨some [3, 4], none⟩) {} =
      search 50 (overrideFirst (fun _ => .ok ⟨some ([] : List Nat), some 0⟩) ⟨some [3, 4], some 0⟩) {}) ∧
    (search 50 (overrideFirst (fun _ => .ok ⟨some ([] : List Nat), some 0⟩) ⟨none, none⟩) {}).outcome = .ok [] := by
  have h := search_missing_fields 50 (fun _ => .ok (⟨some [], some 0⟩ : SearchResponse Nat)) {}
    (by decide)
  exact ⟨h.1 (some 7), h.2.1 [3, 4], h.2.2 (by decide)⟩

/-! Claim C3: the continuation protocol reconstructs the document. -/

/-- fetchWindow when the window reaches the end of the document. -/
theorem fetchWindow_complete {α : Type} (doc : List α) (s m : Nat)
    (h : doc.length ≤ s + ((doc.drop s).take m).length) :
    fetchWindow doc s m =
      ⟨(doc.drop s).take m, .complete, ((doc.drop s).take m).length,
       doc.length, none⟩ := by
  unfold fetchWindow
  rw [if_pos h]

/-- fetchWindow when characters remain beyond the window. -/
theorem fetchWindow_incomplete {α : Type} (doc : List α) (s m : Nat)
    (h : ¬ doc.length ≤ s + ((doc.drop s).take m).length) :
    fetchWindow doc s m =
      ⟨(doc.drop s).take m, .incomplete, ((doc.drop s).take m).length,
       doc.length, some (s + ((doc.drop s).take m).length)⟩ := by
  unfold fetchWindow
  rw [if_neg h]

/-- The continuation loop, started anywhere with a positive budget and
enough fuel, terminates with a complete window and its collected windows
concatenate to the rest of the document. -/
theorem collectWindows_sound {α : Type} (doc : List α) (maxChars : Nat)
    (hm : 1 ≤ maxChars) :
    ∀ (fuel start : Nat), doc.length - start < fuel →
      ∃ ws, collectWindows doc maxChars fuel start = some ws ∧
        ws.flatten = doc.drop start := by
  intro fuel
  induction fuel with
  | zero => intro start h; omega
  | succ fuel ih =>
    intro start h
    by_cases hc : doc.length ≤ start + ((doc.drop start).take maxChars).length
    · refine ⟨[(doc.drop start).take maxChars], ?_, ?_⟩
      · simp only [collectWindows, fetchWindow_complete doc start maxChars hc]
      · have hlen : (doc.drop start).length ≤ maxChars := by
          have h1 := List.length_take maxChars (doc.drop start)
          have h2 := List.length_drop start doc
          omega
        simp [List.take_of_length_le hlen]
    · have hr : ((doc.drop start).take maxChars).length = maxChars := by
        have h1 := List.length_take maxChars (doc.drop start)
        have h2 := List.length_drop start doc
        omega
      have hnext : doc.length - (start + maxChars) < fuel := by
        have h2 := List.length_drop start doc
        omega
      obtain ⟨ws, hcw, hflat⟩ := ih (start + maxChars) hnext
      refine ⟨(doc.drop start).take maxChars :: ws, ?_, ?_⟩
      · simp only [collectWindows, fetchWindow_incomplete doc start maxChars hc, hr, hcw]
      · rw [List.flatten_cons, hflat]
        have hsplit := List.take_append_drop maxChars (doc.drop start)
        rw [List.drop_drop] at hsplit
        exact hsplit

/-- C3 (amended): for every document and every positive max_chars budget,
starting at start_index 0 and feeding each partial window's
next_start_index back as the next start index against the same document
until the status is complete, the concatenation of the returned windows
is exactly the document: contiguous coverage with no overlap and no gap.
(A fuel of document length + 1 always suffices.) -/
theorem fetch_continuation_reconstructs {α : Type} (doc : List α) (maxChars : Nat)
    (hm : 1 ≤ maxChars) :
    ∃ ws, collectWindows doc maxChars (doc.length + 1) 0 = some ws ∧
      ws.flatten = doc := by
  obtain ⟨ws, h1, h2⟩ :=
    collectWindows_sound doc maxChars hm (doc.length + 1) 0 (by omega)
  exact ⟨ws, h1, by simpa using h2⟩

/-- Witness for C3's amended theorem: the five-character document abcde
read with a budget of 2 characters is reconstructed (concretely from the
windows ab, cd, e). -/
theorem fetch_continuation_reconstructs_witness :
    (∃ ws, collectWindows ("abcde".toList) 2 ("abcde".toList.length + 1) 0 = some ws ∧
      ws.flatten = "abcde".toList) ∧
    collectWindows ("abcde".toList) 2 6 0 =
      some [['a', 'b'], ['c', 'd'], ['e']] :=
  ⟨fetch_continuation_reconstructs ("abcde".toList) 2 (by decide), by decide⟩

/-- C3 counterexample: with a max_chars budget of 0 on the one-character
document the first window is partial and its next_start_index is 0, the
very start index it was called with, so the feed-back process never makes
progress and never reaches a complete status: the claim fails for the
budget 0 (the loop returns no reconstruction within any fuel; fuel 2
already exceeds the document length + 1 that suffices for every positive
budget). -/
theorem fetch_continuation_cex :
    (fetchWindow (['a'] : List Char) 0 0).status = FetchStatus.incomplete ∧
    (fetchWindow (['a'] : List Char) 0 0).nextStartIndex = some 0 ∧
    collectWindows (['a'] : List Char) 0 2 0 = none := by
  decide

/-! Claim C2: pagination completeness. -/

/-- The requested total is covered by the first page plus the planned
fan-out pages: start + ceil((rtf - start) / P) pages of width P reach rtf. -/
theorem rtf_le_K (s rtf P : Nat) (hP : ¬ P = 0) :
    rtf ≤ s + pythonRangeLen s rtf P * P := by
  unfold pythonRangeLen
  by_cases h : rtf ≤ s
  · exact le_trans h (Nat.le_add_right s _)
  · have hd : rtf - s + P - 1 < ((rtf - s + P - 1) / P + 1) * P :=
      (Nat.div_lt_iff_lt_mul (by omega)).mp (Nat.lt_succ_self _)
    have hexp : ((rtf - s + P - 1) / P + 1) * P = (rtf - s + P - 1) / P * P + P := by
      ring
    rw [hexp] at hd
    revert hd
    generalize (rtf - s + P - 1) / P * P = w
    intro hd
    omega

/-- The total request count 1 + ceil((M - min P T) / P) equals
max 1 (ceil(M / P)) whenever M is at most T. -/
theorem rangeLen_arith (P T M : Nat) (hP : 1 ≤ P) (hM : M ≤ T) :
    1 + pythonRangeLen (min P T) M P = max 1 ((M + P - 1) / P) := by
  unfold pythonRangeLen
  by_cases hMs : M ≤ min P T
  · have h0 : M - min P T = 0 := by omega
    rw [h0]
    have h1 : (0 + P - 1) / P = 0 := Nat.div_eq_of_lt (by omega)
    rw [h1]
    rcases Nat.eq_zero_or_pos M with hM0 | hM1
    · subst hM0
      rw [h1]
      omega
    · have h2 : (M + P - 1) / P < 2 := (Nat.div_lt_iff_lt_mul (by omega)).mpr (by omega)
      have h3 : 1 ≤ (M + P - 1) / P := by
        rw [Nat.le_div_iff_mul_le (by omega)]
        omega
      revert h2 h3
      generalize (M + P - 1) / P = y
      intro h2 h3
      omega
  · have hsP : min P T = P := by omega
    rw [hsP]
    have h3 : M - P + P - 1 = M - 1 := by omega
    rw [h3]
    have h4 : M + P - 1 = M - 1 + P := by omega
    rw [h4, Nat.add_div_right _ (by omega)]
    generalize (M - 1) / P = z
    omega

/-- The requested total never exceeds the server-reported total. -/
theorem requestedTotal_le (lim : Option Nat) (t : Nat) : requestedTotal lim t ≤ t := by
  cases lim <;> simp only [requestedTotal] <;> omega

/-- The fan-out phase against the offset-honouring server: all requests
succeed and the merged list is the record prefix reaching the end of the
last planned page (truncated to the limit when given). -/
theorem searchFanout_paged {α : Type} (R : List α) (P rtf : Nat) (lim : Option Nat)
    (hP : ¬ P = 0) :
    searchFanout (pagedRespond R P) P (R.take P) rtf lim =
      ⟨none :: (fanoutOffsets (min P R.length) rtf P).map some,
       .ok (match lim with
            | some l =>
              (R.take (min P R.length + pythonRangeLen (min P R.length) rtf P * P)).take l
            | none =>
              R.take (min P R.length + pythonRangeLen (min P R.length) rtf P * P))⟩ := by
  have hlen : (R.take P).length = min P R.length := List.length_take P R
  unfold searchFanout
  rw [if_neg hP, hlen, gatherResponses_paged]
  simp only [List.map_map]
  have hfun : ((fun pg : SearchResponse α => pg.results.getD []) ∘
      fun o => (⟨some ((R.drop o).take P), some R.length⟩ : SearchResponse α)) =
      fun o => (R.drop o).take P := rfl
  rw [hfun, take_eq_take_min R P]
  simp only [fanoutOffsets]
  rw [merge_take R P]

/-- searchFanout_paged specialised to a given limit. -/
theorem searchFanout_paged_some {α : Type} (R : List α) (P rtf l : Nat)
    (hP : ¬ P = 0) :
    searchFanout (pagedRespond R P) P (R.take P) rtf (some l) =
      ⟨none :: (fanoutOffsets (min P R.length) rtf P).map some,
       .ok ((R.take (min P R.length +
          pythonRangeLen (min P R.length) rtf P * P)).take l)⟩ :=
  searchFanout_paged R P rtf (some l) hP

/-- searchFanout_paged specialised to no limit. -/
theorem searchFanout_paged_none {α : Type} (R : List α) (P rtf : Nat)
    (hP : ¬ P = 0) :
    searchFanout (pagedRespond R P) P (R.take P) rtf none =
      ⟨none :: (fanoutOffsets (min P R.length) rtf P).map some,
       .ok (R.take (min P R.length +
          pythonRangeLen (min P R.length) rtf P * P))⟩ :=
  searchFanout_paged R P rtf none hP

/-- The post-first-page phase against the offset-honouring server, for
every limit: the planned fan-out offsets and the requested prefix of the
records. -/
theorem searchAfterFirst_paged {α : Type} (R : List α) (P : Nat) (lim : Option Nat)
    (hP : ¬ P = 0) :
    searchAfterFirst (pagedRespond R P) P lim (R.take P) R.length =
      ⟨none :: (fanoutOffsets (min P R.length) (requestedTotal lim R.length) P).map some,
       .ok (R.take (requestedTotal lim R.length))⟩ := by
  cases lim with
  | none =>
    rw [searchAfterFirst_none, searchFanout_paged_none R P R.length hP]
    simp only [requestedTotal]
    have htake : R.take (min P R.length +
        pythonRangeLen (min P R.length) R.length P * P) = R.take R.length := by
      have hK := rtf_le_K (min P R.length) R.length P hP
      revert hK
      generalize min P R.length + pythonRangeLen (min P R.length) R.length P * P = K
      intro hK
      apply List.take_eq_take.mpr
      omega
    rw [htake]
  | some l =>
    rw [searchAfterFirst_some]
    simp only [requestedTotal]
    by_cases h0 : l = 0
    · subst h0
      rw [if_pos rfl]
      have hoffs : fanoutOffsets (min P R.length) (min 0 R.length) P = [] := by
        unfold fanoutOffsets
        rw [Nat.zero_min, pythonRangeLen_eq_zero hP (Nat.zero_le _)]
        rfl
      rw [hoffs]
      simp [Nat.zero_min]
    · rw [if_neg h0]
      have hlen : (R.take P).length = min P R.length := List.length_take P R
      by_cases hle : l ≤ (R.take P).length
      · rw [if_pos hle]
        rw [hlen] at hle
        have hlT : l ≤ R.length := le_trans hle (Nat.min_le_right _ _)
        have hlP : l ≤ P := le_trans hle (Nat.min_le_left _ _)
        have hM : min l R.length = l := Nat.min_eq_left hlT
        have hoffs : fanoutOffsets (min P R.length) (min l R.length) P = [] := by
          unfold fanoutOffsets
          rw [hM, pythonRangeLen_eq_zero hP hle]
          rfl
        have htake : (R.take P).take l = R.take l := by
          rw [List.take_take, Nat.min_eq_left hlP]
        rw [hoffs, hM, htake]
        rfl
      · rw [if_neg hle]
        rw [hlen] at hle
        rw [searchFanout_paged_some R P (min l R.length) l hP]
        have htake : (R.take (min P R.length +
            pythonRangeLen (min P R.length) (min l R.length) P * P)).take l =
            R.take (min l R.length) := by
          have hK := rtf_le_K (min P R.length) (min l R.length) P hP
          revert hK
          generalize min P R.length +
            pythonRangeLen (min P R.length) (min l R.length) P * P = K
          intro hK
          rw [List.take_take]
          apply List.take_eq_take.mpr
          omega
        rw [htake]

/-- C2 (amended): against a server reporting total_found = T that honours
offsets, with computed page size P >= 1 and limit L (or none), writing
M = min(L or T, T), the engine issues max(1, ceil(M / P)) page requests in
total (the always-issued first page plus the fan-out; the claim's plain
ceil(M / P) count holds whenever M >= 1, the first page being issued even
when M = 0), and the merged outcome is exactly the first M records in the
server's order (offset-ordered merge). -/
theorem search_pagination {α : Type} (pageSize P : Nat) (records : List α)
    (args : SearchArgs)
    (hv : ¬(args.updatedDateType = some UpdatedDateType.customRange ∧
      (args.updatedDateRangeFrom = none ∨ args.updatedDateRangeTo = none)))
    (hps : computedPageSize pageSize args.paginationPageSize = P)
    (hP : 1 ≤ P) :
    (search pageSize (pagedRespond records P) args).requests.length =
      max 1 ((requestedTotal args.limit records.length + P - 1) / P) ∧
    (search pageSize (pagedRespond records P) args).outcome =
      .ok (records.take (requestedTotal args.limit records.length)) := by
  have h1 : pagedRespond records P none =
      .ok ⟨some ((records.drop 0).take P), some records.length⟩ := rfl
  rw [search_eq_afterFirst pageSize _ args _ hv h1]
  simp only [Option.getD_some, List.drop_zero]
  rw [hps, searchAfterFirst_paged records P args.limit (by omega)]
  constructor
  · simp only [List.length_cons, List.length_map, fanoutOffsets, List.length_range']
    exact (Nat.add_comm _ 1).trans
      (rangeLen_arith P records.length (requestedTotal args.limit records.length) hP
        (requestedTotal_le _ _))
  · rfl

/-- Witness for C2's amended theorem at the spec's concrete scenario:
T = 120, P = 50, no limit; three requests (first page plus fan-out at
offsets 50 and 100) and all 120 records in order. -/
theorem search_pagination_witness :
    ((search 50 (pagedRespond (List.range 120) 50) {}).requests.length =
      max 1 ((requestedTotal none (List.range 120).length + 50 - 1) / 50) ∧
    (search 50 (pagedRespond (List.range 120) 50) {}).outcome =
      .ok ((List.range 120).take (requestedTotal none (List.range 120).length))) ∧
    (search 50 (pagedRespond (List.range 120) 50) {}).requests =
      [none, some 50, some 100] ∧
    (search 50 (pagedRespond (List.range 120) 50) {}).outcome = .ok (List.range 120) :=
  ⟨search_pagination 50 50 (List.range 120) {} (by decide) rfl (by decide),
   by decide, by decide⟩

/-- C2 counterexample: when the server reports total_found = 0 (and no
limit is given) the claim's formula ceil(min(T, T) / P) = ceil(0 / 50)
demands 0 total page requests, but the engine unconditionally issues the
first page request: the run's trace has length 1. -/
theorem search_pagination_cex :
    (search 50 (pagedRespond ([] : List Nat) 50) {}).requests.length = 1 ∧
    (requestedTotal none ([] : List Nat).length + 50 - 1) / 50 = 0 := by
  decide

end IglooMcp
